import Mathlib

/-!
Verification of the highlighting subsystem of Kakoune (src/highlighter.hh)
and its lazy range views (src/ranges.hh).

Shallow embedding conventions:
  * `HighlightPass` is the bit-flag enum {Wrap, Move, Colorize}; a bitmask
    over those three bits is embedded as a record of three Booleans, one per
    bit.  `&` (mask intersection test) and `|` (mask union) become pointwise
    Boolean operations.
  * `DisplayBuffer` is an external mutable sink; the embedding is parametric
    in its state type `β`, and a node's `do_highlight` hook is an arbitrary
    state transformer `HighlightContext → β → BufferRange → β` (the opaque
    `const Context&` inside HighlightContext is external and read-only, so
    it is subsumed by the arbitrariness of the hook functions).
  * C++ exceptions become `Except HlError`; the error kinds mirror the
    messages thrown / documented (`notAContainer` for "this highlighter do
    not hold children", etc.).
  * The `Highlighter` class hierarchy (base class with virtual methods plus
    the HighlighterGroup composite) is embedded as an inductive tree:
    `leaf` carries the two private virtual hooks, `group` carries the
    ordered child mapping (insertion-ordered `id ↦ node` association list).
-/

/-- One invocation's pass mask: `enum class HighlightPass { Wrap = 1 << 0,
Move = 1 << 1, Colorize = 1 << 2 }`, a combinable bit union embedded as one
Boolean per bit. -/
structure HighlightPass where
  wrap : Bool
  move : Bool
  colorize : Bool
deriving DecidableEq, Repr

/-- Source `HighlightPass::Wrap`. -/
def passWrap : HighlightPass := ⟨true, false, false⟩

/-- Source `HighlightPass::Move`. -/
def passMove : HighlightPass := ⟨false, true, false⟩

/-- Source `HighlightPass::Colorize`. -/
def passColorize : HighlightPass := ⟨false, false, true⟩

/-- The empty pass mask (bit value 0). -/
def passNone : HighlightPass := ⟨false, false, false⟩

/-- Source `HighlightPass::All = Wrap | Move | Colorize`. -/
def passAll : HighlightPass := ⟨true, true, true⟩

/-- Bitwise union `a | b` of two pass masks. -/
def unionP (a b : HighlightPass) : HighlightPass :=
  ⟨a.wrap || b.wrap, a.move || b.move, a.colorize || b.colorize⟩

/-- The test `(a & b)` used as a condition: true iff the two masks share a
bit. -/
def intersects (a b : HighlightPass) : Bool :=
  (a.wrap && b.wrap) || (a.move && b.move) || (a.colorize && b.colorize)

/-- Source `DisplayCoord`: a 2-D line/column pair. -/
structure DisplayCoord where
  line : Int
  column : Int
deriving DecidableEq, Repr

/-- Source `DisplaySetup` (highlighter.hh lines 40-52): the mutable
geometry-negotiation record. -/
structure DisplaySetup where
  window_pos : DisplayCoord
  window_range : DisplayCoord
  cursor_pos : DisplayCoord
  scroll_offset : DisplayCoord
  full_lines : Bool
deriving DecidableEq, Repr

/-- A buffer coordinate. -/
structure BufferCoord where
  line : Int
  column : Int
deriving DecidableEq, Repr

/-- Source `BufferRange`: the half-open [start, stop) span bounding one
invocation. -/
structure BufferRange where
  start : BufferCoord
  stop : BufferCoord
deriving DecidableEq, Repr

/-- Source `HighlightContext`: the active pass and the ordered list of disabled
node identifiers (the external `const Context&` member is opaque and
read-only, hence omitted; see the header comment). -/
structure HighlightContext where
  pass : HighlightPass
  disabled_ids : List String

/-- The error kinds raised by the subsystem, one per thrown/documented
message: `notAContainer` = "this highlighter do not hold children",
`notFound` = missing id / unresolved path segment, `duplicateIdentifier` =
attach collision, `unknownHighlighterType` = registry miss,
`alreadyRegistered` = registry collision. -/
inductive HlError where
  | notAContainer
  | notFound
  | duplicateIdentifier
  | unknownHighlighterType
  | alreadyRegistered
deriving DecidableEq, Repr

/-- A highlighter node, parametric in the display-buffer state `β`: a leaf
carries its immutable pass mask and its two private virtual hooks
(`do_highlight`, `do_compute_display_setup`); a group (composite) carries
the ordered, insertion-order-preserving mapping from identifier to
exclusively-owned child. -/
inductive Highlighter (β : Type) : Type where
  | leaf (passes : HighlightPass)
         (doHighlight : HighlightContext → β → BufferRange → β)
         (doSetup : HighlightContext → DisplaySetup → DisplaySetup)
  | group (children : List (String × Highlighter β))

/-- The default `do_compute_display_setup` hook (highlighter.hh line 92):
`virtual void do_compute_display_setup(HighlightContext, DisplaySetup&) {}`
— a no-op. -/
def default_do_compute_display_setup :
    HighlightContext → DisplaySetup → DisplaySetup :=
  fun _ setup => setup

mutual

/-- Source `passes()`: a leaf's declared mask; for a group, the spec-maintained
invariant "a group's effective pass mask is the union of its children's
masks" makes the mask the computed union. -/
def Highlighter.passes {β : Type} : Highlighter β → HighlightPass
  | .leaf p _ _ => p
  | .group cs => childrenPasses cs

/-- Union of the declared masks of a child list. -/
def childrenPasses {β : Type} : List (String × Highlighter β) → HighlightPass
  | [] => passNone
  | (_, h) :: rest => unionP h.passes (childrenPasses rest)

end

mutual

/-- The private virtual `do_highlight`: a leaf runs its hook; a group
(modelled from the spec: HighlighterGroup::do_highlight is not under src/)
forwards, in child order, to every child whose identifier is absent from
`context.disabled_ids`, each child re-applying its own pass gate. -/
def Highlighter.do_highlight {β : Type} :
    Highlighter β → HighlightContext → β → BufferRange → β
  | .leaf _ f _, ctx, buf, range => f ctx buf range
  | .group cs, ctx, buf, range => highlightChildren cs ctx buf range

/-- Sequential left-to-right traversal of a child list for `do_highlight`;
the child step inlines `Highlighter::highlight`'s pass gate
(highlighter.hh lines 68-72). -/
def highlightChildren {β : Type} :
    List (String × Highlighter β) → HighlightContext → β → BufferRange → β
  | [], _, buf, _ => buf
  | (id, h) :: rest, ctx, buf, range =>
    highlightChildren rest ctx
      (if ctx.disabled_ids.contains id then buf
       else if intersects ctx.pass h.passes then h.do_highlight ctx buf range
       else buf) range

end

/-- Source `Highlighter::highlight` (highlighter.hh lines 68-72): "if (context.pass
& m_passes) do_highlight(context, display_buffer, range);" — the pass gate
around the virtual hook; failing the gate leaves the buffer unchanged. -/
def Highlighter.highlight {β : Type} (h : Highlighter β)
    (ctx : HighlightContext) (buf : β) (range : BufferRange) : β :=
  if intersects ctx.pass h.passes then h.do_highlight ctx buf range else buf

mutual

/-- The private virtual `do_compute_display_setup`: a leaf runs its hook
(the default hook is the identity); a group (modelled from the spec)
forwards in child order, skipping disabled identifiers. -/
def Highlighter.do_compute_display_setup {β : Type} :
    Highlighter β → HighlightContext → DisplaySetup → DisplaySetup
  | .leaf _ _ g, ctx, setup => g ctx setup
  | .group cs, ctx, setup => setupChildren cs ctx setup

/-- Sequential traversal of a child list for `do_compute_display_setup`,
the child step inlining `Highlighter::compute_display_setup`'s pass gate
(highlighter.hh lines 74-78). -/
def setupChildren {β : Type} :
    List (String × Highlighter β) → HighlightContext → DisplaySetup → DisplaySetup
  | [], _, setup => setup
  | (id, h) :: rest, ctx, setup =>
    setupChildren rest ctx
      (if ctx.disabled_ids.contains id then setup
       else if intersects ctx.pass h.passes then h.do_compute_display_setup ctx setup
       else setup)

end

/-- Source `Highlighter::compute_display_setup` (highlighter.hh lines 74-78): the
same pass gate around the geometry hook. -/
def Highlighter.compute_display_setup {β : Type} (h : Highlighter β)
    (ctx : HighlightContext) (setup : DisplaySetup) : DisplaySetup :=
  if intersects ctx.pass h.passes then h.do_compute_display_setup ctx setup
  else setup

/-- Source `has_children()`: the base-class default returns false (highlighter.hh
line 80); the group composite overrides it to true (modelled from the
spec). -/
def Highlighter.has_children {β : Type} : Highlighter β → Bool
  | .leaf _ _ _ => false
  | .group _ => true

/-- First-match lookup of an identifier in a group's ordered child
mapping. -/
def childLookup {β : Type} : List (String × Highlighter β) → String → Option (Highlighter β)
  | [], _ => none
  | (id, h) :: rest, key => if id = key then some h else childLookup rest key

/-- Modelled from the spec: `HighlighterGroup::get_child(path)` is not under
src/.  The path is a "/"-delimited sequence; each segment resolves one
level; it "fails with 'not found' if any segment is unresolved or names a
non-container". -/
def groupGetChild {β : Type} (cs : List (String × Highlighter β))
    (path : List Char) : Except HlError (Highlighter β) :=
  match childLookup cs (String.mk (path.takeWhile (· ≠ '/'))) with
  | none => .error .notFound
  | some child =>
    match hr : path.dropWhile (· ≠ '/') with
    | [] => .ok child
    | _ :: tail =>
      match child with
      | .leaf _ _ _ => .error .notFound
      | .group cs2 => groupGetChild cs2 tail
termination_by path.length
decreasing_by
  have h1 : (path.dropWhile (fun c => decide (c ≠ '/'))).length ≤ path.length :=
    (List.dropWhile_suffix _).sublist.length_le
  rw [hr] at h1
  simp at h1 ⊢
  omega

/-- Source `get_child`: a leaf rejects with "this highlighter do not hold children"
(highlighter.hh line 81); a group resolves the "/"-delimited path. -/
def Highlighter.get_child {β : Type} :
    Highlighter β → List Char → Except HlError (Highlighter β)
  | .leaf _ _ _, _ => .error .notAContainer
  | .group cs, path => groupGetChild cs path

/-- Source `add_child`: a leaf rejects with "this highlighter do not hold children"
(highlighter.hh line 82); a group (modelled from the spec, the composite is
not under src/) fails with "duplicate identifier" on a direct-sibling
collision and otherwise appends at the end of the child mapping. -/
def Highlighter.add_child {β : Type} :
    Highlighter β → String × Highlighter β → Except HlError (Highlighter β)
  | .leaf _ _ _, _ => .error .notAContainer
  | .group cs, (id, h) =>
    if cs.any (fun c => c.1 = id) then .error .duplicateIdentifier
    else .ok (.group (cs ++ [(id, h)]))

/-- Source `remove_child`: a leaf rejects with "this highlighter do not hold
children" (highlighter.hh line 83); a group (modelled from the spec)
"fails with 'not found' if absent; otherwise detaches and destroys the
subtree". -/
def Highlighter.remove_child {β : Type} :
    Highlighter β → String → Except HlError (Highlighter β)
  | .leaf _ _ _, _ => .error .notAContainer
  | .group cs, id =>
    if cs.any (fun c => c.1 = id) then
      .ok (.group (cs.filter (fun c => !(c.1 = id : Bool))))
    else .error .notFound

mutual

/-- Source `fill_unique_ids(out)`: the base-class default appends nothing
(highlighter.hh line 86: `virtual void fill_unique_ids(...) const {}`); the
group override (modelled from the spec) "recursively appends every
identifier in the subtree". -/
def Highlighter.fill_unique_ids {β : Type} : Highlighter β → List String
  | .leaf _ _ _ => []
  | .group cs => fillIdsChildren cs

/-- Identifier accumulation over a child list, in child order: each child's
own identifier followed by the identifiers of its subtree. -/
def fillIdsChildren {β : Type} : List (String × Highlighter β) → List String
  | [] => []
  | (id, h) :: rest => id :: (h.fill_unique_ids ++ fillIdsChildren rest)

end

/-- Source `complete_child`: a leaf rejects with "this highlighter do not hold
children" (highlighter.hh line 84); a group (modelled from the spec)
produces the candidate identifiers whose name starts with the given
partial final segment, restricted to container children when `groups_only`
is set. -/
def Highlighter.complete_child {β : Type} :
    Highlighter β → String → Bool → Except HlError (List String)
  | .leaf _ _ _, _, _ => .error .notAContainer
  | .group cs, partialSeg, groups_only =>
    .ok ((cs.filter (fun c => (!groups_only || c.2.has_children) &&
                              partialSeg.isPrefixOf c.1)).map (·.1))

mutual

/-- Modelled from the spec: the structural attach at the container resolved
by a segment path (the attaching caller is not under src/).  A leaf target
or intermediate rejects with "not a container"; an unresolved segment with
"not found"; a group target appends the new child at the end. -/
def insertAt {β : Type} :
    Highlighter β → List String → String → Highlighter β →
    Except HlError (Highlighter β)
  | .leaf _ _ _, _, _, _ => .error .notAContainer
  | .group cs, [], id, node => .ok (.group (cs ++ [(id, node)]))
  | .group cs, seg :: rest, id, node =>
    match insertAtChildren cs seg rest id node with
    | .error e => .error e
    | .ok cs2 => .ok (.group cs2)

/-- The child-list step of `insertAt`: rewrite the first child whose
identifier matches the leading segment; "not found" when none does. -/
def insertAtChildren {β : Type} :
    List (String × Highlighter β) → String → List String → String →
    Highlighter β → Except HlError (List (String × Highlighter β))
  | [], _, _, _, _ => .error .notFound
  | (cid, c) :: cs, seg, rest, id, node =>
    if cid = seg then
      match insertAt c rest id node with
      | .error e => .error e
      | .ok c2 => .ok ((cid, c2) :: cs)
    else
      match insertAtChildren cs seg rest id node with
      | .error e => .error e
      | .ok cs2 => .ok ((cid, c) :: cs2)

end

/-- Modelled from the spec: `add_child(id, node)` on an attached tree
"fails with 'duplicate identifier' if id collides with any direct sibling
or with any identifier anywhere in the whole attached tree (checked via a
full-tree uniqueness scan from the root)"; on success it appends at the
end of the addressed container. -/
def addChildAt {β : Type} (root : Highlighter β) (path : List String)
    (id : String) (node : Highlighter β) : Except HlError (Highlighter β) :=
  if root.fill_unique_ids.contains id then .error .duplicateIdentifier
  else insertAt root path id node

/-- Claim-side path-resolution predicate, written from the spec's words:
each successive segment resolves to a child of the node reached so far and
every intermediate node on the path is a container. -/
def resolveSegs {β : Type} : Highlighter β → List String → Option (Highlighter β)
  | h, [] => some h
  | .leaf _ _ _, _ :: _ => none
  | .group cs, seg :: rest =>
    match childLookup cs seg with
    | none => none
    | some child => resolveSegs child rest

/-- Source `SplitView` (ranges.hh lines 162-225), as the list of elements the
iterator protocol yields: the begin iterator scans `sep` forward to the
first separator (`takeWhile`/`dropWhile` of the two-pointer scan); each
dereference yields the half-open slice [pos, sep); `advance` stops when the
separator scan had hit the end, and otherwise moves `pos` past the
separator and rescans — so a position equal to end after a trailing
separator compares equal to the end iterator and yields nothing. -/
def splitKak {α : Type} [DecidableEq α] (sep : α) (l : List α) :
    List (List α) :=
  if l = [] then []
  else
    match hr : l.dropWhile (· ≠ sep) with
    | [] => [l.takeWhile (· ≠ sep)]
    | _ :: tail => l.takeWhile (· ≠ sep) :: splitKak sep tail
termination_by l.length
decreasing_by
  have h1 : (l.dropWhile (fun a => decide (a ≠ sep))).length ≤ l.length :=
    (List.dropWhile_suffix _).sublist.length_le
  rw [hr] at h1
  simp at h1 ⊢
  omega

/-- Claim-side reference split, written from the claim's words: the
decomposition of the input into its (possibly empty) separator-free
segments between consecutive separators — one segment more than there are
separators. -/
def splitOnSpec {α : Type} [DecidableEq α] (sep : α) : List α → List (List α)
  | [] => [[]]
  | a :: rest =>
    if a = sep then [] :: splitOnSpec sep rest
    else
      match splitOnSpec sep rest with
      | [] => [[a]]
      | s :: ss => (a :: s) :: ss

/-- Joining with a separator, the inverse direction of `splitOnSpec`. -/
def joinSep {α : Type} (sep : α) : List (List α) → List α
  | [] => []
  | [s] => s
  | s :: t :: rest => s ++ sep :: joinSep sep (t :: rest)

/-- Claim-side description of what iterating `SplitView` yields: no
segments on empty input; otherwise the separator-free segments of
`splitOnSpec`, with the trailing empty segment dropped when the input ends
in a separator. -/
def splitViewSpec {α : Type} [DecidableEq α] (sep : α) (l : List α) :
    List (List α) :=
  if l = [] then []
  else if l.getLast? = some sep then (splitOnSpec sep l).dropLast
  else splitOnSpec sep l

/-- Source `FilterView` (ranges.hh lines 56-112), as the list of elements the
iterator protocol yields: construction and each increment run `do_filter`,
which skips forward over elements failing the predicate; each dereference
yields the element currently under the iterator. -/
def filterView {α : Type} (p : α → Bool) (l : List α) : List α :=
  match hr : l.dropWhile (fun a => !p a) with
  | [] => []
  | a :: rest => a :: filterView p rest
termination_by l.length
decreasing_by
  have h1 : (l.dropWhile (fun a => !p a)).length ≤ l.length :=
    (List.dropWhile_suffix _).sublist.length_le
  rw [hr] at h1
  simp at h1 ⊢
  omega

/-- Source `HighlighterFactoryAndDocstring` (highlighter.hh lines 101-105): the
construction factory (parameters to a named node, fallible) and its
human-readable description. -/
structure HighlighterFactoryAndDocstring (β : Type) where
  factory : List String → Option (String × Highlighter β)
  docstring : String

/-- Source `HighlighterRegistry` (highlighter.hh lines 106-108): the session-wide
catalog mapping a type name to factory and description, an
insertion-ordered map embedded as an association list. -/
abbrev HighlighterRegistry (β : Type) : Type :=
  List (String × HighlighterFactoryAndDocstring β)

/-- Modelled from the spec: `register(type_name, factory, description)` on
the registry is not under src/; it "fails with 'already registered' if the
name exists" and otherwise adds the entry at the end. -/
def registerHl {β : Type} (reg : HighlighterRegistry β) (type_name : String)
    (entry : HighlighterFactoryAndDocstring β) :
    Except HlError (HighlighterRegistry β) :=
  if reg.any (fun e => e.1 = type_name) then .error .alreadyRegistered
  else .ok (reg ++ [(type_name, entry)])

/-- Modelled from the spec: `lookup(type_name)` "returns the
factory/description or fails with 'unknown highlighter type'". -/
def lookupHl {β : Type} (reg : HighlighterRegistry β) (type_name : String) :
    Except HlError (HighlighterFactoryAndDocstring β) :=
  match reg.find? (fun e => e.1 = type_name) with
  | some e => .ok e.2
  | none => .error .unknownHighlighterType

/-- Distribution of the mask-intersection test over mask union. -/
theorem intersects_unionP (p a b : HighlightPass) :
    intersects p (unionP a b) = (intersects p a || intersects p b) := by
  rcases p with ⟨pw, pm, pc⟩
  rcases a with ⟨aw, am, ac⟩
  rcases b with ⟨bw, bm, bc⟩
  revert pw pm pc aw am ac bw bm bc
  decide

/-- C1: for every highlighter node, calling `highlight` or
`compute_display_setup` with a pass that does not intersect the node's
declared pass mask is a silent no-op, never an error: the display buffer
and the display setup are left completely unchanged. -/
theorem pass_disjoint_noop {β : Type} (h : Highlighter β)
    (ctx : HighlightContext) (buf : β) (range : BufferRange)
    (setup : DisplaySetup) (hd : intersects ctx.pass h.passes = false) :
    h.highlight ctx buf range = buf ∧
    h.compute_display_setup ctx setup = setup := by
  constructor
  · simp [Highlighter.highlight, hd]
  · simp [Highlighter.compute_display_setup, hd]

/-- Witness for C1: a Wrap-only leaf invoked under the Move pass leaves a
concrete buffer and a concrete setup unchanged. -/
theorem pass_disjoint_noop_witness :
    (Highlighter.leaf passWrap (fun _ b _ => b + 1)
        default_do_compute_display_setup : Highlighter Nat).highlight
      ⟨passMove, []⟩ 0 ⟨⟨0, 0⟩, ⟨0, 0⟩⟩ = 0 ∧
    (Highlighter.leaf passWrap (fun _ b _ => b + 1)
        default_do_compute_display_setup : Highlighter Nat).compute_display_setup
      ⟨passMove, []⟩ ⟨⟨0, 0⟩, ⟨0, 0⟩, ⟨0, 0⟩, ⟨0, 0⟩, false⟩ =
      ⟨⟨0, 0⟩, ⟨0, 0⟩, ⟨0, 0⟩, ⟨0, 0⟩, false⟩ :=
  pass_disjoint_noop _ _ _ _ _ (by simp [Highlighter.passes]; decide)

/-- C7: for a highlighter that does not override the default geometry hook,
`compute_display_setup` leaves every field of the display setup unchanged
for every pass, including passes inside the node's declared mask (the
default `do_compute_display_setup` is a no-op). -/
theorem default_geometry_hook_noop {β : Type} (p : HighlightPass)
    (f : HighlightContext → β → BufferRange → β) (ctx : HighlightContext)
    (setup : DisplaySetup) :
    (Highlighter.leaf p f default_do_compute_display_setup).compute_display_setup
      ctx setup = setup := by
  simp [Highlighter.compute_display_setup, Highlighter.do_compute_display_setup,
        default_do_compute_display_setup]

/-- C4: for every leaf (non-container) highlighter, each of `get_child`,
`add_child`, `remove_child` and `complete_child` fails with the
"not a container" error of the base-class default, and `has_children`
returns false. -/
theorem leaf_rejects_children_api {β : Type} (p : HighlightPass)
    (f : HighlightContext → β → BufferRange → β)
    (g : HighlightContext → DisplaySetup → DisplaySetup)
    (path : List Char) (hl : String × Highlighter β) (id partialSeg : String)
    (groups_only : Bool) :
    (Highlighter.leaf p f g).get_child path = .error .notAContainer ∧
    (Highlighter.leaf p f g).add_child hl = .error .notAContainer ∧
    (Highlighter.leaf p f g).remove_child id = .error .notAContainer ∧
    (Highlighter.leaf p f g).complete_child partialSeg groups_only =
      .error .notAContainer ∧
    (Highlighter.leaf p f g).has_children = false := by
  refine ⟨rfl, ?_, rfl, rfl, rfl⟩
  rcases hl with ⟨id2, h2⟩
  rfl

/-- Child-list traversal for `do_highlight` is the left fold of the
individual pass-gated child invocations over the non-disabled children. -/
theorem highlightChildren_eq_foldl {β : Type}
    (cs : List (String × Highlighter β)) (ctx : HighlightContext) (buf : β)
    (range : BufferRange) :
    highlightChildren cs ctx buf range =
    (cs.filter fun c => !(ctx.disabled_ids.contains c.1)).foldl
      (fun b c => c.2.highlight ctx b range) buf := by
  induction cs generalizing buf with
  | nil => simp [highlightChildren]
  | cons c rest ih =>
    rcases c with ⟨id, h⟩
    rw [highlightChildren]
    by_cases hc : id ∈ ctx.disabled_ids
    · simp [List.filter_cons, hc, ih]
    · simp [List.filter_cons, hc, ih, Highlighter.highlight]

/-- When the active pass misses the union of the children's masks, folding
the children's pass-gated invocations leaves the buffer unchanged. -/
theorem foldl_highlight_noop {β : Type}
    (cs : List (String × Highlighter β)) (ctx : HighlightContext) (buf : β)
    (range : BufferRange)
    (hd : intersects ctx.pass (childrenPasses cs) = false) :
    (cs.filter fun c => !(ctx.disabled_ids.contains c.1)).foldl
      (fun b c => c.2.highlight ctx b range) buf = buf := by
  induction cs generalizing buf with
  | nil => simp
  | cons c rest ih =>
    rcases c with ⟨id, h⟩
    rw [childrenPasses, intersects_unionP] at hd
    simp only [Bool.or_eq_false_iff] at hd
    obtain ⟨h1, h2⟩ := hd
    by_cases hc : id ∈ ctx.disabled_ids
    · simpa [List.filter_cons, hc] using ih buf h2
    · simpa [List.filter_cons, hc, Highlighter.highlight, h1] using ih buf h2

/-- C2: for every container (group) node with children and every highlight
context, `highlight` produces the same buffer state as invoking `highlight`
sequentially on each child whose identifier is not in
`context.disabled_ids`, in insertion (index) order; and permuting the child
order or changing `disabled_ids` can change the resulting buffer (shown on
a concrete two-child group). -/
theorem group_highlight_sequential :
    (∀ (β : Type) (cs : List (String × Highlighter β))
       (ctx : HighlightContext) (buf : β) (range : BufferRange),
       (Highlighter.group cs).highlight ctx buf range =
       (cs.filter fun c => !(ctx.disabled_ids.contains c.1)).foldl
         (fun b c => c.2.highlight ctx b range) buf) ∧
    (Highlighter.group
        [("a", .leaf passWrap (fun _ b _ => b + 1) default_do_compute_display_setup),
         ("b", .leaf passWrap (fun _ b _ => b * 2) default_do_compute_display_setup)]
      : Highlighter Nat).highlight ⟨passWrap, []⟩ 0 ⟨⟨0, 0⟩, ⟨0, 0⟩⟩ ≠
    (Highlighter.group
        [("b", .leaf passWrap (fun _ b _ => b * 2) default_do_compute_display_setup),
         ("a", .leaf passWrap (fun _ b _ => b + 1) default_do_compute_display_setup)]
      : Highlighter Nat).highlight ⟨passWrap, []⟩ 0 ⟨⟨0, 0⟩, ⟨0, 0⟩⟩ ∧
    (Highlighter.group
        [("a", .leaf passWrap (fun _ b _ => b + 1) default_do_compute_display_setup),
         ("b", .leaf passWrap (fun _ b _ => b * 2) default_do_compute_display_setup)]
      : Highlighter Nat).highlight ⟨passWrap, ["a"]⟩ 0 ⟨⟨0, 0⟩, ⟨0, 0⟩⟩ ≠
    (Highlighter.group
        [("a", .leaf passWrap (fun _ b _ => b + 1) default_do_compute_display_setup),
         ("b", .leaf passWrap (fun _ b _ => b * 2) default_do_compute_display_setup)]
      : Highlighter Nat).highlight ⟨passWrap, []⟩ 0 ⟨⟨0, 0⟩, ⟨0, 0⟩⟩ := by
  refine ⟨?_, ?_, ?_⟩
  · intro β cs ctx buf range
    by_cases hg : intersects ctx.pass (Highlighter.group cs).passes = true
    · rw [Highlighter.highlight, if_pos hg, Highlighter.do_highlight]
      exact highlightChildren_eq_foldl cs ctx buf range
    · rw [Highlighter.highlight, if_neg hg]
      rw [Highlighter.passes] at hg
      exact (foldl_highlight_noop cs ctx buf range
        (Bool.eq_false_iff.mpr hg)).symm
  · simp [Highlighter.highlight, Highlighter.do_highlight, highlightChildren,
          Highlighter.passes, childrenPasses, intersects, unionP, passWrap,
          passNone]
  · simp [Highlighter.highlight, Highlighter.do_highlight, highlightChildren,
          Highlighter.passes, childrenPasses, intersects, unionP, passWrap,
          passNone]

/-- C6: during the Move pass over a group, children mutate the shared
display setup sequentially in child order and the last writer of a field
wins: with child `a` setting `cursor_pos.line = 5` followed by child `b`
setting `cursor_pos.line = 7`, the group's `compute_display_setup` leaves
`cursor_pos.line = 7`, and swapping the two children's insertion order
leaves it `= 5`. -/
theorem move_pass_last_writer :
    ((Highlighter.group
        [("a", .leaf passMove (fun _ b _ => b)
            (fun _ s => { s with cursor_pos := { s.cursor_pos with line := 5 } })),
         ("b", .leaf passMove (fun _ b _ => b)
            (fun _ s => { s with cursor_pos := { s.cursor_pos with line := 7 } }))]
       : Highlighter Unit).compute_display_setup ⟨passMove, []⟩
        ⟨⟨0, 0⟩, ⟨0, 0⟩, ⟨0, 0⟩, ⟨0, 0⟩, false⟩).cursor_pos.line = 7 ∧
    ((Highlighter.group
        [("b", .leaf passMove (fun _ b _ => b)
            (fun _ s => { s with cursor_pos := { s.cursor_pos with line := 7 } })),
         ("a", .leaf passMove (fun _ b _ => b)
            (fun _ s => { s with cursor_pos := { s.cursor_pos with line := 5 } }))]
       : Highlighter Unit).compute_display_setup ⟨passMove, []⟩
        ⟨⟨0, 0⟩, ⟨0, 0⟩, ⟨0, 0⟩, ⟨0, 0⟩, false⟩).cursor_pos.line = 5 := by
  constructor <;>
    simp [Highlighter.compute_display_setup, Highlighter.do_compute_display_setup,
          setupChildren, Highlighter.passes, childrenPasses, intersects, unionP,
          passMove, passNone]

/-- C10: for every underlying list and predicate, iterating `FilterView`
yields exactly the elements of the underlying range that satisfy the
predicate, in their original relative order: it is `List.filter`. -/
theorem filterView_eq_filter {α : Type} (p : α → Bool) (l : List α) :
    filterView p l = l.filter p := by
  induction l with
  | nil => simp [filterView]
  | cons x xs ih =>
    by_cases hx : p x = true
    · rw [filterView]
      rw [List.dropWhile_cons_of_neg (by simp [hx])]
      simp [hx, ih]
    · rw [filterView]
      rw [List.dropWhile_cons_of_pos (by simp [Bool.eq_false_iff.mpr hx])]
      rw [← filterView]
      simp [List.filter_cons, hx, ih]

/-- The reference split never produces an empty segment list. -/
theorem splitOnSpec_ne_nil {α : Type} [DecidableEq α] (sep : α) (l : List α) :
    splitOnSpec sep l ≠ [] := by
  induction l with
  | nil => simp [splitOnSpec]
  | cons a rest ih =>
    rw [splitOnSpec]
    by_cases ha : a = sep
    · simp [ha]
    · simp only [if_neg ha]
      rcases hs : splitOnSpec sep rest with _ | ⟨s, ss⟩
      · exact absurd hs ih
      · simp

/-- The head of a non-empty `dropWhile` residue fails the predicate. -/
theorem dropWhile_head_false {α : Type} (p : α → Bool) (l : List α) (d : α)
    (tail : List α) (h : l.dropWhile p = d :: tail) : p d = false := by
  induction l with
  | nil => simp at h
  | cons a rest ih =>
    rw [List.dropWhile_cons] at h
    by_cases ha : p a = true
    · exact ih (by simpa [ha] using h)
    · rw [if_neg ha] at h
      cases h
      exact Bool.eq_false_iff.mpr ha

/-- On separator-free input the reference split is the whole input. -/
theorem splitOnSpec_of_dropWhile_nil {α : Type} [DecidableEq α] (sep : α)
    (l : List α) (h : l.dropWhile (· ≠ sep) = []) : splitOnSpec sep l = [l] := by
  induction l with
  | nil => simp [splitOnSpec]
  | cons a rest ih =>
    rw [List.dropWhile_cons] at h
    by_cases ha : a = sep
    · simp [ha] at h
    · rw [if_pos (by simpa using ha)] at h
      rw [splitOnSpec, if_neg ha, ih h]

/-- Past the first separator the reference split peels off the leading
separator-free run and recurses. -/
theorem splitOnSpec_of_dropWhile_cons {α : Type} [DecidableEq α] (sep : α)
    (l : List α) (d : α) (tail : List α)
    (h : l.dropWhile (· ≠ sep) = d :: tail) :
    splitOnSpec sep l = l.takeWhile (· ≠ sep) :: splitOnSpec sep tail := by
  induction l with
  | nil => simp at h
  | cons a rest ih =>
    rw [List.dropWhile_cons] at h
    by_cases ha : a = sep
    · rw [if_neg (by simpa using ha)] at h
      cases h
      rw [splitOnSpec, if_pos ha, List.takeWhile_cons,
          if_neg (by simpa using ha)]
    · rw [if_pos (by simpa using ha)] at h
      rw [splitOnSpec, if_neg ha, ih h, List.takeWhile_cons,
          if_pos (by simpa using ha)]

/-- Joining the reference split's segments with the separator rebuilds the
input, so the segments are exactly the runs between separators. -/
theorem joinSep_splitOnSpec {α : Type} [DecidableEq α] (sep : α) (l : List α) :
    joinSep sep (splitOnSpec sep l) = l := by
  induction l with
  | nil => simp [splitOnSpec, joinSep]
  | cons a rest ih =>
    rw [splitOnSpec]
    by_cases ha : a = sep
    · rw [if_pos ha]
      rcases hs : splitOnSpec sep rest with _ | ⟨s, ss⟩
      · exact absurd hs (splitOnSpec_ne_nil sep rest)
      · rw [hs] at ih
        rw [joinSep]
        simp [← ih, ha]
    · rw [if_neg ha]
      rcases hs : splitOnSpec sep rest with _ | ⟨s, ss⟩
      · exact absurd hs (splitOnSpec_ne_nil sep rest)
      · rw [hs] at ih
        rcases ss with _ | ⟨t, ts⟩
        · rw [joinSep] at ih ⊢
          rw [ih]
        · rw [joinSep] at ih ⊢
          rw [List.cons_append, ih]

/-- Every segment of the reference split is separator-free. -/
theorem splitOnSpec_sep_free {α : Type} [DecidableEq α] (sep : α) (l : List α) :
    (splitOnSpec sep l).all (fun s => s.all (fun a => decide (a ≠ sep))) = true := by
  induction l with
  | nil => simp [splitOnSpec]
  | cons a rest ih =>
    rw [splitOnSpec]
    by_cases ha : a = sep
    · simpa [ha] using ih
    · rw [if_neg ha]
      rcases hs : splitOnSpec sep rest with _ | ⟨s, ss⟩
      · exact absurd hs (splitOnSpec_ne_nil sep rest)
      · rw [hs] at ih
        simp only [List.all_cons, Bool.and_eq_true] at ih ⊢
        exact ⟨⟨by simpa using ha, ih.1⟩, ih.2⟩

/-- The last element of an append with a non-empty right part is the last
element of the right part. -/
theorem getLast?_append_cons {α : Type} (xs : List α) (y : α) (ys : List α) :
    (xs ++ y :: ys).getLast? = (y :: ys).getLast? := by
  induction xs with
  | nil => rfl
  | cons x xs ih =>
    rcases xs with _ | ⟨x2, xs2⟩
    · simp only [List.cons_append, List.nil_append]
      exact List.getLast?_cons_cons
    · simp only [List.cons_append] at ih ⊢
      rw [List.getLast?_cons_cons]
      exact ih

/-- The list of segments the `SplitView` iterator protocol yields is the
reference split with the trailing empty segment dropped after a trailing
separator. -/
theorem splitKak_eq_view {α : Type} [DecidableEq α] (sep : α) (l : List α) :
    splitKak sep l = splitViewSpec sep l := by
  induction l using splitKak.induct sep with
  | case1 => simp [splitKak, splitViewSpec]
  | case2 x hx hd =>
    have ht : x.takeWhile (· ≠ sep) = x := by
      have h2 := List.takeWhile_append_dropWhile (fun a => decide (a ≠ sep)) x
      rwa [hd, List.append_nil] at h2
    have hall : ∀ y ∈ x, decide (y ≠ sep) = true := List.dropWhile_eq_nil_iff.mp hd
    have hlast : ¬ x.getLast? = some sep := by
      intro hc
      have hmem : sep ∈ x := List.mem_of_mem_getLast? hc
      have h3 := hall sep hmem
      simp at h3
    rw [splitKak, if_neg hx]
    split
    · rw [splitViewSpec, if_neg hx, if_neg hlast,
          splitOnSpec_of_dropWhile_nil sep x hd, ht]
    · next d tail h2 =>
      rw [hd] at h2
      cases h2
  | case3 x hx head tail hd ih =>
    have hsep : head = sep := by
      have h3 := dropWhile_head_false (fun a => decide (a ≠ sep)) x head tail hd
      simpa using h3
    subst hsep
    have hx2 : x = x.takeWhile (· ≠ head) ++ head :: tail := by
      conv_lhs => rw [← List.takeWhile_append_dropWhile (fun a => decide (a ≠ head)) x]
      rw [hd]
    have hsplit : splitOnSpec head x = x.takeWhile (· ≠ head) :: splitOnSpec head tail :=
      splitOnSpec_of_dropWhile_cons head x head tail hd
    have hlast : x.getLast? = (head :: tail).getLast? := by
      conv_lhs => rw [hx2]
      exact getLast?_append_cons _ head tail
    rw [splitKak, if_neg hx]
    split
    · next h2 =>
      rw [hd] at h2
      cases h2
    · next d tail2 h2 =>
      rw [hd] at h2
      injection h2 with hde hte
      subst hte
      rw [ih]
      conv_rhs => rw [splitViewSpec]
      rw [if_neg hx, hlast, hsplit]
      rcases tail with _ | ⟨t, ts⟩
      · simp [splitViewSpec, splitOnSpec, List.dropLast]
      · rw [List.getLast?_cons_cons]
        by_cases hls : (t :: ts).getLast? = some head
        · rw [if_pos hls]
          conv_lhs => rw [splitViewSpec]
          rw [if_neg (by simp), if_pos hls]
          rcases hs : splitOnSpec head (t :: ts) with _ | ⟨s, ss⟩
          · exact absurd hs (splitOnSpec_ne_nil head (t :: ts))
          · simp [List.dropLast]
        · rw [if_neg hls]
          conv_lhs => rw [splitViewSpec]
          rw [if_neg (by simp), if_neg hls]

/-- C9: iterating `SplitView` yields, in order, the maximal separator-free
segments of the input (the reference split, whose separator-joined
segments rebuild the input and are separator-free); an empty input yields
no segments; a trailing separator yields no trailing empty segment while a
leading separator yields a leading empty one, checked on splitting "a/"
and "/a" on '/'. -/
theorem splitView_segments {α : Type} [DecidableEq α] (sep : α) (l : List α) :
    splitKak sep ([] : List α) = [] ∧
    splitKak sep l = splitViewSpec sep l ∧
    joinSep sep (splitOnSpec sep l) = l ∧
    (splitOnSpec sep l).all (fun s => s.all (fun a => decide (a ≠ sep))) = true ∧
    splitKak '/' ['a', '/'] = [['a']] ∧
    splitKak '/' ['/', 'a'] = [[], ['a']] :=
  ⟨by rw [splitKak]; simp,
   splitKak_eq_view sep l,
   joinSep_splitOnSpec sep l,
   splitOnSpec_sep_free sep l,
   (splitKak_eq_view '/' ['a', '/']).trans (by decide),
   (splitKak_eq_view '/' ['/', 'a']).trans (by decide)⟩

/-- The incremental first-separator traversal of a group agrees with
claim-side resolution over the "/"-split segment list. -/
theorem groupGetChild_eq_resolve {β : Type}
    (cs : List (String × Highlighter β)) (path : List Char) :
    groupGetChild cs path =
      (match resolveSegs (Highlighter.group cs)
          ((splitOnSpec '/' path).map (fun s => String.mk s)) with
       | some c => Except.ok c
       | none => Except.error HlError.notFound) := by
  induction cs, path using groupGetChild.induct with
  | case1 cs path h =>
    rcases hdw : path.dropWhile (· ≠ '/') with _ | ⟨d, tail⟩
    · have ht : path.takeWhile (· ≠ '/') = path := by
        have h2 := List.takeWhile_append_dropWhile (fun a => decide (a ≠ '/')) path
        rwa [hdw, List.append_nil] at h2
      rw [groupGetChild, splitOnSpec_of_dropWhile_nil _ _ hdw, ht]
      rw [ht] at h
      rw [h]
      simp [resolveSegs, h]
    · rw [groupGetChild, splitOnSpec_of_dropWhile_cons _ _ _ _ hdw]
      rw [h]
      simp only [ne_eq, decide_not] at h
      simp [resolveSegs, h]
  | case2 cs path child h hdw =>
    have ht : path.takeWhile (· ≠ '/') = path := by
      have h2 := List.takeWhile_append_dropWhile (fun a => decide (a ≠ '/')) path
      rwa [hdw, List.append_nil] at h2
    rw [groupGetChild, splitOnSpec_of_dropWhile_nil _ _ hdw]
    simp only [h]
    split
    · rw [ht] at h
      simp [resolveSegs, h]
    · next d t h2 =>
      rw [hdw] at h2
      cases h2
  | case3 cs path head tail hdw p doH doS h =>
    rw [groupGetChild, splitOnSpec_of_dropWhile_cons _ _ _ _ hdw]
    simp only [h]
    split
    · next h2 =>
      rw [hdw] at h2
      cases h2
    · next d t h2 =>
      rw [hdw] at h2
      injection h2 with hde hte
      subst hte
      rcases hs : splitOnSpec '/' tail with _ | ⟨s, ss⟩
      · exact absurd hs (splitOnSpec_ne_nil '/' tail)
      · simp only [ne_eq, decide_not] at h
        simp [resolveSegs, h]
  | case4 cs path head tail hdw cs2 h ih =>
    rw [groupGetChild, splitOnSpec_of_dropWhile_cons _ _ _ _ hdw]
    simp only [h]
    split
    · next h2 =>
      rw [hdw] at h2
      cases h2
    · next d t h2 =>
      rw [hdw] at h2
      injection h2 with hde hte
      subst hte
      rw [ih]
      simp only [ne_eq, decide_not] at h
      simp [resolveSegs, h]

/-- C5: for every container and every "/"-delimited path, `get_child(path)`
succeeds iff each successive segment resolves to a child of the node
reached so far and every intermediate node on the path is a container
(the claim-side `resolveSegs` over the split segments); otherwise it fails
with the "not found" error. -/
theorem get_child_resolves_path {β : Type}
    (cs : List (String × Highlighter β)) (path : List Char) :
    (Highlighter.group cs).get_child path =
      (match resolveSegs (Highlighter.group cs)
          ((splitOnSpec '/' path).map (fun s => String.mk s)) with
       | some c => Except.ok c
       | none => Except.error HlError.notFound) := by
  rw [Highlighter.get_child]
  exact groupGetChild_eq_resolve cs path

/-- Rewriting the first identifier match of a child list with a successful
structural insertion keeps the lookup pointing at the rewritten child. -/
theorem insertAtChildren_lookup {β : Type}
    (cs0 : List (String × Highlighter β)) (seg : String) (rest : List String)
    (id : String) (node child child2 : Highlighter β)
    (hl : childLookup cs0 seg = some child)
    (hi : insertAt child rest id node = .ok child2) :
    ∃ cs0p, insertAtChildren cs0 seg rest id node = .ok cs0p ∧
            childLookup cs0p seg = some child2 := by
  induction cs0 with
  | nil => simp [childLookup] at hl
  | cons c cs ih =>
    rcases c with ⟨cid, ch⟩
    rw [childLookup] at hl
    by_cases hc : cid = seg
    · rw [if_pos hc] at hl
      injection hl with hle
      subst hle
      refine ⟨(cid, child2) :: cs, ?_, ?_⟩
      · rw [insertAtChildren, if_pos hc, hi]
      · rw [childLookup, if_pos hc]
    · rw [if_neg hc] at hl
      obtain ⟨cs2, hic, hlp⟩ := ih hl
      refine ⟨(cid, ch) :: cs2, ?_, ?_⟩
      · rw [insertAtChildren, if_neg hc, hic]
      · rw [childLookup, if_neg hc]
        exact hlp

/-- A structural insertion at a path that resolves to a group succeeds and
appends the new named child at the end of exactly that group. -/
theorem insertAt_resolves {β : Type} (path : List String)
    (root : Highlighter β) (cs : List (String × Highlighter β)) (id : String)
    (node : Highlighter β)
    (h : resolveSegs root path = some (.group cs)) :
    ∃ root2, insertAt root path id node = .ok root2 ∧
             resolveSegs root2 path = some (.group (cs ++ [(id, node)])) := by
  induction path generalizing root cs with
  | nil =>
    rw [resolveSegs] at h
    injection h with he
    subst he
    refine ⟨.group (cs ++ [(id, node)]), ?_, ?_⟩
    · rw [insertAt]
    · rw [resolveSegs]
  | cons seg rest ih =>
    cases root with
    | leaf p f g =>
      rw [resolveSegs] at h
      cases h
    | group cs0 =>
      rw [resolveSegs] at h
      rcases hl : childLookup cs0 seg with _ | child
      · rw [hl] at h
        cases h
      · rw [hl] at h
        obtain ⟨child2, hi, hr⟩ := ih child cs h
        obtain ⟨cs0p, hic, hlp⟩ :=
          insertAtChildren_lookup cs0 seg rest id node child child2 hl hi
        refine ⟨.group cs0p, ?_, ?_⟩
        · rw [insertAt, hic]
        · rw [resolveSegs, hlp]
          simpa using hr

/-- C3: for every attached highlighter tree, container node (addressed by a
resolving segment path) and identifier, `add_child` fails with the
"duplicate identifier" error whenever the identifier already occurs
anywhere in the whole attached tree (the full-tree `fill_unique_ids` scan
from the root), and on success the new child is appended at the end of the
addressed container's ordered child mapping. -/
theorem add_child_tree_unique {β : Type} (root : Highlighter β)
    (path : List String) (id : String) (node : Highlighter β) :
    (root.fill_unique_ids.contains id = true →
       addChildAt root path id node = .error .duplicateIdentifier) ∧
    (∀ cs, root.fill_unique_ids.contains id = false →
       resolveSegs root path = some (.group cs) →
       ∃ root2, addChildAt root path id node = .ok root2 ∧
                resolveSegs root2 path = some (.group (cs ++ [(id, node)]))) := by
  constructor
  · intro hdup
    rw [addChildAt, if_pos hdup]
  · intro cs hnot hres
    rw [addChildAt, if_neg (by simpa using hnot)]
    exact insertAt_resolves path root cs id node hres

/-- Witness for C3: attaching "a" again anywhere on a concrete tree that
already holds "a" in another subtree fails with the duplicate error, and
attaching the fresh "d" under the container "a" succeeds and appends it. -/
theorem add_child_tree_unique_witness :
    addChildAt
      (Highlighter.group [("a", Highlighter.group []),
        ("c", Highlighter.leaf passWrap (fun _ (b : Nat) _ => b)
          default_do_compute_display_setup)])
      ["c"] "a"
      (Highlighter.leaf passMove (fun _ b _ => b)
        default_do_compute_display_setup) = .error .duplicateIdentifier ∧
    (∃ root2,
      addChildAt
        (Highlighter.group [("a", Highlighter.group []),
          ("c", Highlighter.leaf passWrap (fun _ (b : Nat) _ => b)
            default_do_compute_display_setup)])
        ["a"] "d"
        (Highlighter.leaf passMove (fun _ b _ => b)
          default_do_compute_display_setup) = .ok root2 ∧
      resolveSegs root2 ["a"] =
        some (.group ([] ++ [("d", Highlighter.leaf passMove (fun _ b _ => b)
          default_do_compute_display_setup)]))) :=
  ⟨(add_child_tree_unique _ ["c"] "a" _).1
     (by simp [Highlighter.fill_unique_ids, fillIdsChildren]),
   (add_child_tree_unique _ ["a"] "d" _).2 []
     (by simp [Highlighter.fill_unique_ids, fillIdsChildren])
     (by simp [resolveSegs, childLookup])⟩

/-- C8: for every registry state, `register(type_name, factory, description)`
fails with the "already registered" error when the name is already a key
of the registry, and otherwise appends the entry; a successful
registration leaves the lookup of every other key unchanged. -/
theorem register_policy {β : Type} (reg : HighlighterRegistry β)
    (type_name : String) (entry : HighlighterFactoryAndDocstring β) :
    (reg.any (fun e => e.1 = type_name) = true →
       registerHl reg type_name entry = .error .alreadyRegistered) ∧
    (reg.any (fun e => e.1 = type_name) = false →
       registerHl reg type_name entry = .ok (reg ++ [(type_name, entry)]) ∧
       ∀ other, other ≠ type_name →
         lookupHl (reg ++ [(type_name, entry)]) other = lookupHl reg other) := by
  refine ⟨?_, ?_⟩
  · intro hdup
    rw [registerHl, if_pos hdup]
  · intro hnot
    refine ⟨by rw [registerHl, if_neg (by simp [hnot])], ?_⟩
    intro other hother
    rw [lookupHl, lookupHl, List.find?_append, List.find?_singleton,
        if_neg (by simpa using Ne.symm hother)]
    rw [Option.or_none]

/-- Witness for C8: re-registering "columns" over a concrete one-entry
registry fails, while registering the fresh "flash" appends it and keeps
the lookup of "columns" unchanged. -/
theorem register_policy_witness :
    registerHl ([("columns", ⟨fun _ => none, "gutter"⟩)] : HighlighterRegistry Nat)
      "columns" ⟨fun _ => none, "other"⟩ = .error .alreadyRegistered ∧
    (registerHl ([("columns", ⟨fun _ => none, "gutter"⟩)] : HighlighterRegistry Nat)
       "flash" ⟨fun _ => none, "other"⟩ =
       .ok ([("columns", ⟨fun _ => none, "gutter"⟩)] ++
            [("flash", ⟨fun _ => none, "other"⟩)]) ∧
     lookupHl ([("columns", ⟨fun _ => none, "gutter"⟩)] ++
            [("flash", ⟨fun _ => none, "other"⟩)]) "columns" =
       lookupHl ([("columns", ⟨fun _ => none, "gutter"⟩)] : HighlighterRegistry Nat)
         "columns") :=
  ⟨(register_policy _ "columns" _).1 (by simp),
   ⟨((register_policy _ "flash" _).2 (by simp)).1,
    ((register_policy _ "flash" _).2 (by simp)).2 "columns" (by simp)⟩⟩
